import Mathlib

/-!
Shallow embedding of the per-project memory store of this repository
(`src/brain/memory.py` and `src/brain/embedder.py`): an embedding-backed
add/search/delete store with on-disk persistence.

Modelling choices:
* vectors are lists of exact integers (the claims under test do not depend on float rounding); FAISS `IndexIDMap(IndexFlatL2(d))`
  is a dimension plus the stored (id, vector) pairs in insertion order, and
  its `search` ranks by squared L2 distance ascending (the same ordering as
  L2 distance), ties keeping insertion order via a stable sort;
* the remote embedding endpoint is a pure function from text to either a
  vector or a provider failure;
* Python exceptions become `Except Err`; in-place mutation becomes explicit
  state threading, so an operation that returns an error leaves the caller's
  state and disk values untouched, exactly as the Python methods raise
  before mutating;
* the filesystem is a `Disk` record holding the directory flag and the two
  files, each absent, undecodable, or good.
-/

namespace Brain

/-- A Python argument that may be `None` or a string (the
`isinstance(text, str)` checks distinguish these). -/
inductive PyInput where
  | pyNone : PyInput
  | pyStr : String → PyInput
  deriving DecidableEq, Repr

/-- Errors surfaced by the embedded operations.
`invalidInput` is the `ValueError` raised by input validation;
`providerError` is an error propagated out of the OpenAI call;
`dimMismatch` is the error FAISS raises when a vector's dimension differs
from the index dimension; `idNotFound` is the `ValueError` raised by
`self.ids.index(idx)` in `search_memory`; `textPosOutOfRange` is an
`IndexError` from `self.texts[...]`. -/
inductive Err where
  | invalidInput : Err
  | providerError : Err
  | dimMismatch : Err
  | idNotFound : Err
  | textPosOutOfRange : Err
  deriving DecidableEq, Repr

/-- The remote embedding endpoint, deterministic in this model: one text in,
either a vector or a provider failure out. -/
def Provider : Type := String → Except Unit (List ℤ)

/-- `text.replace("\n", " ")` performed by `Embedder.get_embedding`. The
pattern is the single character `'\n'`, so the replacement is exactly a
character-wise substitution. -/
def pynorm (text : String) : String :=
  String.mk (text.data.map (fun c => if c = '\n' then ' ' else c))

/-- `Embedder.get_embedding`: validate the input, normalise newlines to
spaces, then call the provider, propagating its failure. -/
def get_embedding (p : Provider) (input : PyInput) : Except Err (List ℤ) :=
  match input with
  | .pyNone => .error .invalidInput
  | .pyStr text =>
    if text = "" then .error .invalidInput
    else
      match p (pynorm text) with
      | .ok v => .ok v
      | .error _ => .error .providerError

/-- Model of `faiss.IndexIDMap(faiss.IndexFlatL2(d))`: the dimension and the
stored (id, vector) pairs in insertion order. -/
structure FaissIndex where
  d : Nat
  entries : List (Int × List ℤ)
  deriving DecidableEq, Repr

/-- `index.ntotal`. -/
def FaissIndex.ntotal (idx : FaissIndex) : Nat := idx.entries.length

/-- Squared L2 distance between two vectors. `IndexFlatL2` ranks neighbours
by L2 distance; ranking by its square is the same ordering. -/
def distSq (a b : List ℤ) : ℤ := (List.zipWith (fun x y => (x - y) * (x - y)) a b).sum

/-- `index.add_with_ids`: FAISS raises when the vector dimension does not
match the index dimension; otherwise the pair is appended. -/
def FaissIndex.add_with_ids (idx : FaissIndex) (id : Int) (v : List ℤ) :
    Except Err FaissIndex :=
  if v.length = idx.d then .ok { idx with entries := idx.entries ++ [(id, v)] }
  else .error .dimMismatch

/-- Comparison ranking search results: ascending squared distance. -/
def distLe (a b : ℤ × Int) : Prop := a.1 ≤ b.1

instance : DecidableRel distLe := fun a b => inferInstanceAs (Decidable (a.1 ≤ b.1))

instance : IsTotal (ℤ × Int) distLe := ⟨fun a b => le_total a.1 b.1⟩

instance : IsTrans (ℤ × Int) distLe := ⟨fun _ _ _ h1 h2 => le_trans h1 h2⟩

/-- `index.search`: the `k` nearest stored vectors to `q` by L2 distance
ascending, as (squared distance, id) pairs; ties keep insertion order
(stable sort). FAISS raises when the query dimension does not match. -/
def FaissIndex.search (idx : FaissIndex) (q : List ℤ) (k : Nat) :
    Except Err (List (ℤ × Int)) :=
  if q.length = idx.d then
    .ok (((idx.entries.map (fun e => (distSq q e.2, e.1))).insertionSort distLe).take k)
  else .error .dimMismatch

/-- The decoded content of `text_data.json`; either key may be absent
(`_load_memory` reads them with `dict.get` defaults). -/
structure TextData where
  textsKey : Option (List String)
  idsKey : Option (List Int)
  deriving DecidableEq, Repr

/-- One on-disk file: absent, unreadable (deserialization raises), or good. -/
inductive FileState (α : Type) where
  | missing : FileState α
  | corrupt : FileState α
  | good : α → FileState α
  deriving DecidableEq, Repr

/-- The project's on-disk state: the project directory, `index.faiss` and
`text_data.json`. -/
structure Disk where
  dirExists : Bool
  indexFile : FileState FaissIndex
  textFile : FileState TextData
  deriving DecidableEq, Repr

/-- Disk state with no project directory (and hence no files). -/
def Disk.empty : Disk := ⟨false, .missing, .missing⟩

/-- The in-memory state of a `Brain` instance: `self.texts`, `self.ids` and
`self.index`. -/
structure BrainState where
  texts : List String
  ids : List Int
  index : FaissIndex
  deriving DecidableEq, Repr

/-- The dimension determined by `Brain._initialise_empty_index`: the length
of a probe embedding, falling back to 1536 (the `text-embedding-ada-002`
default) when the probe raises. -/
def init_dim (p : Provider) : Nat :=
  match get_embedding p (.pyStr "initial_dimension_check") with
  | .ok v => v.length
  | .error _ => 1536

/-- `Brain._initialise_empty_index`: probe the embedder once for the
dimension, falling back to 1536 when the probe fails, and reset to an empty
index with empty texts and ids. -/
def initialise_empty_index (p : Provider) : BrainState :=
  ⟨[], [], ⟨init_dim p, []⟩⟩

/-- `Brain._load_memory`: when both files exist and decode, adopt the stored
texts and ids (with the `dict.get` defaults) and, for a non-empty index,
discard everything when the stored dimension differs from a fresh probe of
the embedder or the probe raises. A missing file, an unreadable file, or any
exception inside the `try` block ends in `_initialise_empty_index`. -/
def load_memory (p : Provider) (dk : Disk) : BrainState :=
  match dk.indexFile, dk.textFile with
  | .good idx, .good td =>
    let texts := td.textsKey.getD []
    let ids := td.idsKey.getD ((List.range texts.length).map Int.ofNat)
    if idx.ntotal ≠ 0 then
      match get_embedding p (.pyStr "test") with
      | .ok v =>
        if idx.d ≠ v.length then initialise_empty_index p
        else ⟨texts, ids, idx⟩
      | .error _ => initialise_empty_index p
    else ⟨texts, ids, idx⟩
  | _, _ => initialise_empty_index p

/-- `Brain.__init__` for a valid project id: ensure the project directory
exists, then load. Returns the handle together with the disk as the
constructor leaves it. -/
def openStore (p : Provider) (dk : Disk) : BrainState × Disk :=
  (load_memory p { dk with dirExists := true }, { dk with dirExists := true })

/-- `Brain._save_memory`: write both files. (After `__init__` the index is
never `None`, so the early-return guard of the Python code is not taken.) -/
def save_memory (s : BrainState) (dk : Disk) : Disk :=
  { dk with indexFile := .good s.index,
            textFile := .good ⟨some s.texts, some s.ids⟩ }

/-- `Brain.add_memory`: validate, embed (a failure propagates before any
state change), insert the vector under id `len(self.texts)`, append to
`texts` and `ids`, then persist both files. -/
def add_memory (p : Provider) (s : BrainState) (dk : Disk) (input : PyInput) :
    Except Err (BrainState × Disk) :=
  match input with
  | .pyNone => .error .invalidInput
  | .pyStr text =>
    if text = "" then .error .invalidInput
    else
      match get_embedding p (.pyStr text) with
      | .error e => .error e
      | .ok embedding =>
        let new_id : Int := Int.ofNat s.texts.length
        match s.index.add_with_ids new_id embedding with
        | .error e => .error e
        | .ok idx' =>
          let s' : BrainState := ⟨s.texts ++ [text], s.ids ++ [new_id], idx'⟩
          .ok (s', save_memory s' dk)

/-- The result loop of `search_memory`: skip the FAISS sentinel `-1`; map
every other id through `self.ids.index(idx)` (a `ValueError` when absent)
and index `self.texts` at the found position. -/
def lookup_texts (s : BrainState) : List Int → Except Err (List String)
  | [] => .ok []
  | i :: rest =>
    if i = -1 then lookup_texts s rest
    else
      match s.ids.findIdx? (fun x => x == i) with
      | none => .error .idNotFound
      | some pos =>
        match s.texts[pos]? with
        | none => .error .textPosOutOfRange
        | some t =>
          match lookup_texts s rest with
          | .error e => .error e
          | .ok ts => .ok (t :: ts)

/-- `Brain.search_memory`: validate; an empty index short-circuits to `[]`
before the embedder is contacted; otherwise embed the query, run the FAISS
search with `k` clamped to `ntotal`, and map the returned ids to texts. -/
def search_memory (p : Provider) (s : BrainState) (input : PyInput) (k : Nat) :
    Except Err (List String) :=
  match input with
  | .pyNone => .error .invalidInput
  | .pyStr query =>
    if query = "" then .error .invalidInput
    else if s.index.ntotal = 0 then .ok []
    else
      match get_embedding p (.pyStr query) with
      | .error e => .error e
      | .ok qv =>
        match s.index.search qv (min k s.index.ntotal) with
        | .error e => .error e
        | .ok pairs => lookup_texts s (pairs.map Prod.snd)

/-- `Brain.delete_memory`: remove the project directory when present
(`shutil.rmtree` failure is caught, modelled by the `rmFails` flag, and
never re-raised; a missing directory is a logged no-op), then reinitialise
the in-memory state to empty in every case. -/
def delete_memory (p : Provider) (rmFails : Bool) (dk : Disk) :
    BrainState × Disk :=
  let dk' :=
    if dk.dirExists then (if rmFails then dk else Disk.empty) else dk
  (initialise_empty_index p, dk')

/-- The store invariant the design maintains: `ids` parallel to `texts` with
values 0..N-1 in order, one index vector per text stored under exactly those
ids, every stored vector of the index dimension. -/
def StoreInv (s : BrainState) : Prop :=
  s.ids.length = s.texts.length ∧
  s.ids = (List.range s.texts.length).map Int.ofNat ∧
  s.index.ntotal = s.texts.length ∧
  s.index.entries.map Prod.fst = s.ids ∧
  ∀ e ∈ s.index.entries, e.2.length = s.index.d

/-- A sequence of `add_memory` calls, threading state and disk and stopping
at the first failure (a raised exception aborts a Python loop the same
way). -/
def run_adds (p : Provider) : BrainState × Disk → List String → Except Err (BrainState × Disk)
  | sdk, [] => .ok sdk
  | sdk, t :: ts =>
    match add_memory p sdk.1 sdk.2 (.pyStr t) with
    | .error e => .error e
    | .ok sdk' => run_adds p sdk' ts

/-- Decidable equality on `Except`, so that witnesses below can be settled
by `decide`. -/
instance {ε α : Type} [DecidableEq ε] [DecidableEq α] :
    DecidableEq (Except ε α) := fun x y =>
  match x, y with
  | .ok a, .ok b =>
    if h : a = b then isTrue (by rw [h]) else isFalse (by simp [h])
  | .error a, .error b =>
    if h : a = b then isTrue (by rw [h]) else isFalse (by simp [h])
  | .ok _, .error _ => isFalse (by simp)
  | .error _, .ok _ => isFalse (by simp)

/-- The (id, vector) entries appended by a run of `add_memory` calls whose
provider embeds `t` as `f (pynorm t)`, the first one receiving id `start`. -/
def addedEntries (f : String → List ℤ) : Nat → List String → List (Int × List ℤ)
  | _, [] => []
  | start, t :: ts => (Int.ofNat start, f (pynorm t)) :: addedEntries f (start + 1) ts

/-- Sample provider embedding a text as the one-dimensional vector holding
its length; distinct texts of distinct lengths get distinct embeddings. -/
def pLen : Provider := fun t => .ok [(t.length : ℤ)]

/-- Sample provider whose remote call always fails. -/
def pFail : Provider := fun _ => .error ()

/-- Sample provider embedding every text as the same vector `[0]`. -/
def pConst : Provider := fun _ => .ok [0]

/-- Sample store: empty, one-dimensional. -/
def emptyStore1 : BrainState := ⟨[], [], ⟨1, []⟩⟩

/-- Sample store whose persisted files went out of sync: the index holds two
vectors but `texts` and `ids` record only one entry. -/
def skewedStore : BrainState := ⟨["a"], [0], ⟨1, [(0, [5]), (1, [0])]⟩⟩

/-- Sample store holding two texts with their `pLen` embeddings. -/
def twoStore : BrainState := ⟨["a", "bb"], [0, 1], ⟨1, [(0, [1]), (1, [2])]⟩⟩

/-- The store produced by `add_memory pLen emptyStore1 Disk.empty "x"`. -/
def sAdded : BrainState := ⟨["x"], [0], ⟨1, [(0, [1])]⟩⟩

/-- The disk produced by `add_memory pLen emptyStore1 Disk.empty "x"`. -/
def dkAdded : Disk := ⟨false, .good ⟨1, [(0, [1])]⟩, .good ⟨some ["x"], some [0]⟩⟩

/-- Sample disk whose project directory exists with no files inside. -/
def dkDir : Disk := ⟨true, .missing, .missing⟩

/-- The store after adding "a" then "b" with the constant provider. -/
def cexStore : BrainState := ⟨["a", "b"], [0, 1], ⟨1, [(0, [0]), (1, [0])]⟩⟩

/-- The disk after adding "a" then "b" with the constant provider. -/
def cexDisk : Disk :=
  ⟨true, .good ⟨1, [(0, [0]), (1, [0])]⟩, .good ⟨some ["a", "b"], some [0, 1]⟩⟩

/-- Sample disk holding a persisted two-dimensional index with one vector,
plus its corpus file. -/
def dkGood2 : Disk :=
  ⟨true, .good ⟨2, [(0, [3, 4])]⟩, .good ⟨some ["y"], some [0]⟩⟩

/-- Characterisation of a successful `add_memory` call on a string input. -/
theorem add_memory_ok_iff (p : Provider) (s : BrainState) (dk : Disk)
    (text : String) (s' : BrainState) (dk' : Disk) :
    add_memory p s dk (.pyStr text) = .ok (s', dk') ↔
      (text ≠ "" ∧ ∃ v, get_embedding p (.pyStr text) = .ok v ∧
        v.length = s.index.d ∧
        s' = ⟨s.texts ++ [text], s.ids ++ [Int.ofNat s.texts.length],
              ⟨s.index.d, s.index.entries ++ [(Int.ofNat s.texts.length, v)]⟩⟩ ∧
        dk' = save_memory s' dk) := by
  constructor
  · intro h
    simp only [add_memory] at h
    split at h
    · exact Except.noConfusion h
    · rename_i he
      cases hemb : get_embedding p (.pyStr text) with
      | error e =>
        rw [hemb] at h
        exact Except.noConfusion h
      | ok v =>
        rw [hemb] at h
        simp only [FaissIndex.add_with_ids] at h
        by_cases hd : v.length = s.index.d
        · rw [if_pos hd] at h
          simp only [Except.ok.injEq, Prod.mk.injEq] at h
          refine ⟨he, v, rfl, hd, h.1.symm, ?_⟩
          rw [← h.2, ← h.1]
        · rw [if_neg hd] at h
          exact Except.noConfusion h
  · rintro ⟨he, v, hemb, hd, hs, hdk⟩
    simp only [add_memory, if_neg he, hemb, FaissIndex.add_with_ids, if_pos hd,
      hs, hdk]

/-- The freshly reinitialised empty state satisfies the store invariant. -/
theorem storeInv_init (p : Provider) : StoreInv (initialise_empty_index p) :=
  ⟨rfl, rfl, rfl, rfl, fun e he => absurd he (List.not_mem_nil e)⟩

/-- A successful `add_memory` preserves the store invariant. -/
theorem storeInv_add (p : Provider) (s : BrainState) (dk : Disk)
    (input : PyInput) (s' : BrainState) (dk' : Disk) (hinv : StoreInv s)
    (h : add_memory p s dk input = .ok (s', dk')) : StoreInv s' := by
  cases input with
  | pyNone => exact Except.noConfusion h
  | pyStr text =>
    rcases (add_memory_ok_iff p s dk text s' dk').mp h with ⟨_, v, _, hd, hs, _⟩
    subst hs
    obtain ⟨h1, h2, h3, h4, h5⟩ := hinv
    refine ⟨?_, ?_, ?_, ?_, ?_⟩
    · simp [h1]
    · rw [h2]
      simp [List.range_succ]
    · simp only [FaissIndex.ntotal, List.length_append] at h3 ⊢
      simp [h3]
    · simp [h4]
    · intro e he
      rcases List.mem_append.mp he with hmemb | hmemb
      · exact h5 e hmemb
      · rw [List.mem_singleton.mp hmemb]
        exact hd

/-- Computation of `_load_memory` on a disk that `_save_memory` just wrote:
for a non-empty index the dimension probe decides between the saved state
and a fresh empty one. -/
theorem load_memory_save (p : Provider) (s : BrainState) (dk : Disk) :
    load_memory p (save_memory s dk)
      = if s.index.ntotal ≠ 0 then
          match get_embedding p (.pyStr "test") with
          | .ok v => if s.index.d ≠ v.length then initialise_empty_index p
                     else ⟨s.texts, s.ids, s.index⟩
          | .error _ => initialise_empty_index p
        else ⟨s.texts, s.ids, s.index⟩ := rfl

/-- Reopening a store right after `_save_memory` yields a state that again
satisfies the store invariant (either the saved state itself or a fresh
empty one when the dimension probe fails or disagrees). -/
theorem storeInv_load_save (p : Provider) (s : BrainState) (dk : Disk)
    (hinv : StoreInv s) : StoreInv (load_memory p (save_memory s dk)) := by
  have h : load_memory p (save_memory s dk)
      = if s.index.ntotal ≠ 0 then
          match get_embedding p (.pyStr "test") with
          | .ok v => if s.index.d ≠ v.length then initialise_empty_index p
                     else ⟨s.texts, s.ids, s.index⟩
          | .error _ => initialise_empty_index p
        else ⟨s.texts, s.ids, s.index⟩ := rfl
  rw [h]
  split
  · split
    · split
      · exact storeInv_init p
      · exact hinv
    · exact storeInv_init p
  · exact hinv

/-- C2: the store invariant — `len(texts) == index.ntotal`, `ids` parallel
to `texts` with values exactly `[0, 1, ..., N-1]` in order (and the index
entries stored under exactly those ids, each of the index dimension) —
holds after a cold `open`, after `open` on a disk state any mutation just
persisted, after every successful `add`, and after `delete`. `search` is
modelled as a pure function of the state (it returns only the result list),
so it cannot change the state, which settles the search case of the claim
by construction. -/
theorem C2_store_invariant (p : Provider) (s s' : BrainState) (dk dk' : Disk)
    (rmFails : Bool) (input : PyInput) :
    StoreInv (openStore p Disk.empty).1 ∧
    (StoreInv s → StoreInv (openStore p (save_memory s dk)).1) ∧
    (StoreInv s → add_memory p s dk input = .ok (s', dk') → StoreInv s') ∧
    StoreInv (delete_memory p rmFails dk).1 := by
  refine ⟨storeInv_init p, ?_, ?_, storeInv_init p⟩
  · intro hinv
    exact storeInv_load_save p s { dk with dirExists := true } hinv
  · intro hinv h
    exact storeInv_add p s dk input s' dk' hinv h

/-- Witness for C2 at concrete stores and a concrete successful add. -/
theorem C2_witness :
    StoreInv (openStore pLen Disk.empty).1 ∧
    StoreInv (openStore pLen (save_memory emptyStore1 Disk.empty)).1 ∧
    StoreInv sAdded ∧
    StoreInv (delete_memory pLen false dkDir).1 := by
  have hinv0 : StoreInv emptyStore1 :=
    ⟨rfl, rfl, rfl, rfl, fun e he => absurd he (List.not_mem_nil e)⟩
  have h := C2_store_invariant pLen emptyStore1 sAdded Disk.empty dkAdded
    false (.pyStr "x")
  exact ⟨h.1, h.2.1 hinv0, h.2.2.1 hinv0 (by decide), h.2.2.2⟩

/-- C3: `add(None)`, `add("")` and `search("", k)` each raise the
input-validation `ValueError` (`InvalidInput`). A raised error produces no
new state and no disk write in this embedding, so both the in-memory state
(`texts`, `ids`, `index`) and the on-disk state are left unchanged, exactly
as in the source where validation precedes every mutation. -/
theorem C3_invalid_input_rejected (p : Provider) (s : BrainState) (dk : Disk)
    (k : Nat) :
    add_memory p s dk .pyNone = .error .invalidInput ∧
    add_memory p s dk (.pyStr "") = .error .invalidInput ∧
    search_memory p s (.pyStr "") k = .error .invalidInput := by
  refine ⟨rfl, ?_, ?_⟩ <;> simp [add_memory, search_memory]

/-- C4: when the provider call inside `add_memory` fails, the failure
propagates to the caller as `providerError`, and since `add_memory` raises
before any mutation, the corpus, ids, index and the on-disk files are left
exactly as they were (no partial state change: the erroring call returns no
replacement state or disk). -/
theorem C4_add_provider_failure_atomic (p : Provider) (s : BrainState)
    (dk : Disk) (text : String) (hne : text ≠ "")
    (hfail : p (pynorm text) = .error ()) :
    add_memory p s dk (.pyStr text) = .error .providerError := by
  simp [add_memory, get_embedding, hne, hfail]

/-- Witness for C4 at a concrete failing provider. -/
theorem C4_witness :
    add_memory pFail emptyStore1 Disk.empty (.pyStr "x") = .error .providerError :=
  C4_add_provider_failure_atomic pFail emptyStore1 Disk.empty "x" (by decide) rfl

/-- C5: a successful `add_memory` of a (necessarily non-empty) string
assigns the new id `len(self.texts)`, inserts the embedding vector under
that id into the index, appends the text to the corpus, and persists both
the index file and the corpus file to disk before returning. -/
theorem C5_add_postcondition (p : Provider) (s : BrainState) (dk : Disk)
    (text : String) (s' : BrainState) (dk' : Disk)
    (h : add_memory p s dk (.pyStr text) = .ok (s', dk')) :
    text ≠ "" ∧
    ∃ v, get_embedding p (.pyStr text) = .ok v ∧
      s'.texts = s.texts ++ [text] ∧
      s'.ids = s.ids ++ [Int.ofNat s.texts.length] ∧
      s'.index.d = s.index.d ∧
      s'.index.entries = s.index.entries ++ [(Int.ofNat s.texts.length, v)] ∧
      dk'.indexFile = .good s'.index ∧
      dk'.textFile = .good ⟨some s'.texts, some s'.ids⟩ ∧
      dk'.dirExists = dk.dirExists := by
  rcases (add_memory_ok_iff p s dk text s' dk').mp h with ⟨he, v, hemb, hd, hs, hdk⟩
  subst hs hdk
  exact ⟨he, v, hemb, rfl, rfl, rfl, rfl, rfl, rfl, rfl⟩

/-- Witness for C5 at a concrete provider and empty store. -/
theorem C5_witness :
    "x" ≠ "" ∧
    ∃ v, get_embedding pLen (.pyStr "x") = .ok v ∧
      sAdded.texts = emptyStore1.texts ++ ["x"] ∧
      sAdded.ids = emptyStore1.ids ++ [Int.ofNat emptyStore1.texts.length] ∧
      sAdded.index.d = emptyStore1.index.d ∧
      sAdded.index.entries
        = emptyStore1.index.entries ++ [(Int.ofNat emptyStore1.texts.length, v)] ∧
      dkAdded.indexFile = .good sAdded.index ∧
      dkAdded.textFile = .good ⟨some sAdded.texts, some sAdded.ids⟩ ∧
      dkAdded.dirExists = Disk.empty.dirExists :=
  C5_add_postcondition pLen emptyStore1 Disk.empty "x" sAdded dkAdded (by decide)

/-- C6: a search with a non-empty query on a store whose index holds zero
vectors returns the empty list; the theorem holds for every provider `p`
(including the always-failing one in the witness), which is the shallow
form of "the Embedding Provider is not invoked": the guard `ntotal == 0`
comes before the embedding call in the source. -/
theorem C6_empty_search (p : Provider) (s : BrainState) (query : String)
    (k : Nat) (hq : query ≠ "") (hempty : s.index.ntotal = 0) :
    search_memory p s (.pyStr query) k = .ok [] := by
  simp [search_memory, hq, hempty]

/-- Witness for C6: the provider that always fails still yields `ok []`. -/
theorem C6_witness : search_memory pFail emptyStore1 (.pyStr "q") 5 = .ok [] :=
  C6_empty_search pFail emptyStore1 "q" 5 (by decide) rfl

/-- C8: `open` is a total function of the disk state (it never raises: every
load error is caught in `_load_memory`, and a probe failure inside
`_initialise_empty_index` is caught there too). The conjuncts: (a) a missing
or unreadable file falls back to the freshly initialised empty store; (b) a
probe failure during the dimension check of a non-empty index falls back
likewise; (c) so does a stored dimension that differs from the provider's
current output dimension; (d) the empty store is sized to the provider's
current dimension, or to the constant 1536 when the dimension probe itself
fails; (e) a subsequent `add` with a vector of the new dimension succeeds. -/
theorem C8_open_robustness (p : Provider) (dk : Disk) (idx : FaissIndex)
    (td : TextData) (t : String) (u v w : List ℤ) :
    ((dk.indexFile = .missing ∨ dk.indexFile = .corrupt ∨
      dk.textFile = .missing ∨ dk.textFile = .corrupt) →
      (openStore p dk).1 = initialise_empty_index p) ∧
    (dk.indexFile = .good idx → dk.textFile = .good td → idx.ntotal ≠ 0 →
      get_embedding p (.pyStr "test") = .error .providerError →
      (openStore p dk).1 = initialise_empty_index p) ∧
    (dk.indexFile = .good idx → dk.textFile = .good td → idx.ntotal ≠ 0 →
      get_embedding p (.pyStr "test") = .ok v → idx.d ≠ v.length →
      (openStore p dk).1 = initialise_empty_index p) ∧
    (get_embedding p (.pyStr "initial_dimension_check") = .ok w →
      (initialise_empty_index p).index.d = w.length) ∧
    (get_embedding p (.pyStr "initial_dimension_check") = .error .providerError →
      (initialise_empty_index p).index.d = 1536) ∧
    (get_embedding p (.pyStr t) = .ok u →
      u.length = (initialise_empty_index p).index.d →
      ∃ s' dk', add_memory p (initialise_empty_index p) dk (.pyStr t)
        = .ok (s', dk')) := by
  obtain ⟨de, fi, ft⟩ := dk
  refine ⟨?_, ?_, ?_, ?_, ?_, ?_⟩
  · intro hcase
    cases fi <;> cases ft <;> first
      | rfl
      | (rcases hcase with hc | hc | hc | hc <;> exact FileState.noConfusion hc)
  · intro hfi hft hn hprobe
    cases hfi
    cases hft
    show load_memory p ⟨true, .good idx, .good td⟩ = initialise_empty_index p
    unfold load_memory
    simp only [hprobe, if_pos hn]
  · intro hfi hft hn hprobe hdim
    cases hfi
    cases hft
    show load_memory p ⟨true, .good idx, .good td⟩ = initialise_empty_index p
    unfold load_memory
    simp only [hprobe, if_pos hn, if_pos hdim]
  · intro hw
    show (⟨[], [], ⟨init_dim p, []⟩⟩ : BrainState).index.d = w.length
    unfold init_dim
    simp only [hw]
  · intro hw
    show (⟨[], [], ⟨init_dim p, []⟩⟩ : BrainState).index.d = 1536
    unfold init_dim
    simp only [hw]
  · intro hemb hlen
    have hne : t ≠ "" := by
      intro h0
      rw [h0] at hemb
      exact Except.noConfusion hemb
    exact ⟨_, _, (add_memory_ok_iff p (initialise_empty_index p) ⟨de, fi, ft⟩
      t _ _).mpr ⟨hne, u, hemb, hlen, rfl, rfl⟩⟩

/-- Witness for C8, one concrete instantiation per conjunct: a corrupt index
file, a probe that fails, a stored dimension 2 against a current provider
dimension 1, the two sizing cases, and a successful add after recovery. -/
theorem C8_witness :
    (openStore pLen ⟨true, .corrupt, .missing⟩).1 = initialise_empty_index pLen ∧
    (openStore pFail dkGood2).1 = initialise_empty_index pFail ∧
    (openStore pLen dkGood2).1 = initialise_empty_index pLen ∧
    (initialise_empty_index pLen).index.d = 1 ∧
    (initialise_empty_index pFail).index.d = 1536 ∧
    ∃ s' dk', add_memory pLen (initialise_empty_index pLen) dkGood2 (.pyStr "x")
      = .ok (s', dk') := by
  refine ⟨?_, ?_, ?_, ?_, ?_, ?_⟩
  · exact (C8_open_robustness pLen ⟨true, .corrupt, .missing⟩ ⟨1, []⟩
      ⟨none, none⟩ "x" [] [] []).1 (Or.inr (Or.inl rfl))
  · exact (C8_open_robustness pFail dkGood2 ⟨2, [(0, [3, 4])]⟩
      ⟨some ["y"], some [0]⟩ "x" [] [] []).2.1 rfl rfl (by decide) rfl
  · exact (C8_open_robustness pLen dkGood2 ⟨2, [(0, [3, 4])]⟩
      ⟨some ["y"], some [0]⟩ "x" [] [4] []).2.2.1 rfl rfl (by decide) rfl
      (by decide)
  · exact (C8_open_robustness pLen dkGood2 ⟨2, [(0, [3, 4])]⟩
      ⟨some ["y"], some [0]⟩ "x" [] [] [23]).2.2.2.1 rfl
  · exact (C8_open_robustness pFail dkGood2 ⟨2, [(0, [3, 4])]⟩
      ⟨some ["y"], some [0]⟩ "x" [] [] []).2.2.2.2.1 rfl
  · exact (C8_open_robustness pLen dkGood2 ⟨2, [(0, [3, 4])]⟩
      ⟨some ["y"], some [0]⟩ "x" [1] [] []).2.2.2.2.2 rfl rfl

/-- C9: `delete_memory` never raises (it is a total function here: the
`shutil.rmtree` failure branch is caught in the source); in every case —
directory present, absent, or removal failed — the in-memory texts, ids and
index come back empty; when the directory exists and removal succeeds the
on-disk directory is gone, and a missing directory is a pure no-op on
disk. -/
theorem C9_delete_semantics (p : Provider) (rmFails : Bool) (dk : Disk) :
    (delete_memory p rmFails dk).1.texts = [] ∧
    (delete_memory p rmFails dk).1.ids = [] ∧
    (delete_memory p rmFails dk).1.index.ntotal = 0 ∧
    (dk.dirExists = true → rmFails = false →
      (delete_memory p rmFails dk).2 = Disk.empty) ∧
    (dk.dirExists = false → (delete_memory p rmFails dk).2 = dk) := by
  refine ⟨rfl, rfl, rfl, ?_, ?_⟩
  · intro h1 h2
    simp [delete_memory, h1, h2]
  · intro h1
    simp [delete_memory, h1]

/-- Witness for C9: deleting a project whose directory exists, with a
successful removal. -/
theorem C9_witness :
    (delete_memory pLen false dkDir).1.texts = [] ∧
    (delete_memory pLen false dkDir).1.ids = [] ∧
    (delete_memory pLen false dkDir).1.index.ntotal = 0 ∧
    (delete_memory pLen false dkDir).2 = Disk.empty := by
  have h := C9_delete_semantics pLen false dkDir
  exact ⟨h.1, h.2.1, h.2.2.1, h.2.2.2.1 rfl rfl⟩

/-- Squared L2 distance is nonnegative. -/
theorem distSq_nonneg (a : List ℤ) : ∀ b : List ℤ, 0 ≤ distSq a b := by
  induction a with
  | nil => intro b; simp [distSq]
  | cons x xs ih =>
    intro b
    cases b with
    | nil => simp [distSq]
    | cons y ys =>
      simp only [distSq, List.zipWith_cons_cons, List.sum_cons]
      exact add_nonneg (mul_self_nonneg (x - y)) (ih ys)

/-- A vector is at squared distance zero from itself. -/
theorem distSq_self (a : List ℤ) : distSq a a = 0 := by
  induction a with
  | nil => rfl
  | cons x xs ih =>
    simp only [distSq, List.zipWith_cons_cons, List.sum_cons] at ih ⊢
    simp [ih]

/-- Vectors of equal dimension at squared distance zero are equal. -/
theorem eq_of_distSq_eq_zero : ∀ (a b : List ℤ), a.length = b.length →
    distSq a b = 0 → a = b := by
  intro a
  induction a with
  | nil =>
    intro b hl _
    cases b with
    | nil => rfl
    | cons y ys => simp at hl
  | cons x xs ih =>
    intro b hl h0
    cases b with
    | nil => simp at hl
    | cons y ys =>
      simp only [distSq, List.zipWith_cons_cons, List.sum_cons] at h0
      have h1 : 0 ≤ (x - y) * (x - y) := mul_self_nonneg (x - y)
      have h2 : 0 ≤ distSq xs ys := distSq_nonneg xs ys
      rw [show (List.zipWith (fun x y => (x - y) * (x - y)) xs ys).sum
        = distSq xs ys from rfl] at h0
      obtain ⟨hxy, hrest⟩ := (add_eq_zero_iff_of_nonneg h1 h2).mp h0
      have hx : x = y := sub_eq_zero.mp (mul_self_eq_zero.mp hxy)
      have hxs : xs = ys := ih ys (by simpa using hl) hrest
      rw [hx, hxs]

/-- `index.search` with a query of the index dimension never raises and
returns the stable sort, truncated to `k`. -/
theorem faiss_search_ok (idx : FaissIndex) (qv : List ℤ) (k : Nat)
    (hq : qv.length = idx.d) :
    idx.search qv k = .ok
      (((idx.entries.map (fun e => (distSq qv e.2, e.1))).insertionSort
        distLe).take k) := by
  simp [FaissIndex.search, hq]

/-- The pairs returned by `index.search` are sorted by ascending distance,
number at most `k`, and each is the distance/id pair of a stored entry. -/
theorem search_pairs_spec (idx : FaissIndex) (qv : List ℤ) (k : Nat)
    (pairs : List (ℤ × Int)) (h : idx.search qv k = .ok pairs) :
    List.Sorted distLe pairs ∧ pairs.length ≤ k ∧
    ∀ pr ∈ pairs, ∃ en ∈ idx.entries, pr = (distSq qv en.2, en.1) := by
  by_cases hq : qv.length = idx.d
  · rw [faiss_search_ok idx qv k hq] at h
    have hp : pairs = ((idx.entries.map
        (fun e => (distSq qv e.2, e.1))).insertionSort distLe).take k := by
      cases h
      rfl
    subst hp
    refine ⟨?_, ?_, ?_⟩
    · exact List.Pairwise.sublist (List.take_sublist k _)
        (List.sorted_insertionSort distLe _)
    · rw [List.length_take]
      exact min_le_left k _
    · intro pr hpr
      have hpr1 : pr ∈ (idx.entries.map
          (fun e => (distSq qv e.2, e.1))).insertionSort distLe :=
        List.take_subset k _ hpr
      have hpr2 : pr ∈ idx.entries.map (fun e => (distSq qv e.2, e.1)) :=
        (List.perm_insertionSort distLe _).subset hpr1
      rcases List.mem_map.mp hpr2 with ⟨en, hen, heq⟩
      exact ⟨en, hen, heq.symm⟩
  · unfold FaissIndex.search at h
    rw [if_neg hq] at h
    exact Except.noConfusion h

/-- The result loop returns at most one text per id handed to it. -/
theorem lookup_texts_length_le (s : BrainState) :
    ∀ (l : List Int) (res : List String),
      lookup_texts s l = .ok res → res.length ≤ l.length := by
  intro l
  induction l with
  | nil =>
    intro res h
    cases h
    simp
  | cons i rest ih =>
    intro res h
    simp only [lookup_texts] at h
    by_cases hi : i = -1
    · rw [if_pos hi] at h
      exact Nat.le_succ_of_le (ih res h)
    · rw [if_neg hi] at h
      cases hf : s.ids.findIdx? (fun x => x == i) with
      | none =>
        simp only [hf] at h
        exact Except.noConfusion h
      | some pos =>
        simp only [hf] at h
        cases ht : s.texts[pos]? with
        | none =>
          simp only [ht] at h
          exact Except.noConfusion h
        | some t =>
          simp only [ht] at h
          cases hrec : lookup_texts s rest with
          | error e =>
            simp only [hrec] at h
            exact Except.noConfusion h
          | ok ts =>
            simp only [hrec, Except.ok.injEq] at h
            rw [← h]
            simpa using Nat.succ_le_succ (ih ts hrec)

/-- C7: for a well-formed store and a query embedding of the index
dimension, a successful `search` returns at most `min k N` texts (`N` the
corpus size: the source clamps `k` to `ntotal`), and they are exactly the
texts of the id list produced by the index's nearest-neighbour search,
whose pairs are sorted by ascending L2 distance to the query embedding and
are each the distance of a stored vector (nearest first). -/
theorem C7_k_clamp_and_order (p : Provider) (s : BrainState) (query : String)
    (k : Nat) (qv : List ℤ) (res : List String)
    (hinv : StoreInv s) (hq : query ≠ "")
    (hemb : get_embedding p (.pyStr query) = .ok qv)
    (hqd : qv.length = s.index.d)
    (hres : search_memory p s (.pyStr query) k = .ok res) :
    res.length ≤ min k s.texts.length ∧
    ∃ pairs, s.index.search qv (min k s.index.ntotal) = .ok pairs ∧
      List.Sorted distLe pairs ∧
      (∀ pr ∈ pairs, ∃ en ∈ s.index.entries, pr = (distSq qv en.2, en.1)) ∧
      lookup_texts s (pairs.map Prod.snd) = .ok res := by
  obtain ⟨h1, h2, h3, h4, h5⟩ := hinv
  by_cases hn : s.index.ntotal = 0
  · have hentries : s.index.entries = [] := List.length_eq_zero.mp hn
    have hres0 : res = [] := by
      simp only [search_memory, if_neg hq, if_pos hn, Except.ok.injEq] at hres
      exact hres.symm
    subst hres0
    refine ⟨Nat.zero_le _, [], ?_, List.sorted_nil, ?_, rfl⟩
    · rw [faiss_search_ok s.index qv _ hqd, hentries]
      simp [List.insertionSort]
    · intro pr hpr
      exact absurd hpr (List.not_mem_nil pr)
  · have hsearch := faiss_search_ok s.index qv (min k s.index.ntotal) hqd
    simp only [search_memory, if_neg hq, if_neg hn, hemb, hsearch] at hres
    refine ⟨?_, _, hsearch, ?_, ?_, hres⟩
    · have hlen1 := lookup_texts_length_le s _ res hres
      rw [List.length_map] at hlen1
      have hlen2 : ∀ L : List (ℤ × Int),
          (L.take (min k s.index.ntotal)).length ≤ min k s.index.ntotal := by
        intro L
        rw [List.length_take]
        exact min_le_left _ _
      have hlen2' := hlen2
        ((s.index.entries.map (fun e => (distSq qv e.2, e.1))).insertionSort distLe)
      omega
    · exact (search_pairs_spec s.index qv _ _ hsearch).1
    · exact (search_pairs_spec s.index qv _ _ hsearch).2.2

/-- Witness for C7: a two-text store searched with `k = 5` returns both
texts nearest first. -/
theorem C7_witness :
    (["bb", "a"] : List String).length ≤ min 5 twoStore.texts.length ∧
    ∃ pairs, twoStore.index.search [2] (min 5 twoStore.index.ntotal)
        = .ok pairs ∧
      List.Sorted distLe pairs ∧
      (∀ pr ∈ pairs, ∃ en ∈ twoStore.index.entries,
        pr = (distSq [2] en.2, en.1)) ∧
      lookup_texts twoStore (pairs.map Prod.snd) = .ok ["bb", "a"] :=
  C7_k_clamp_and_order pLen twoStore "bb" 5 [2] ["bb", "a"]
    ⟨rfl, rfl, rfl, rfl, by decide⟩ (by decide) (by decide) rfl (by decide)

/-- C10: in `search_memory`'s result loop only the exact sentinel `-1` is
skipped; any other id returned by the index that is absent from the
in-memory `ids` list (possible when the persisted `index.faiss` and
`text_data.json` are mutually inconsistent, e.g. an `ids` list shorter than
the index's vector count) makes `self.ids.index(idx)` raise `ValueError`,
so the whole search raises instead of skipping that id. -/
theorem C10_unknown_id_raises (p : Provider) (s : BrainState) (query : String)
    (k : Nat) (qv : List ℤ) (pairs : List (ℤ × Int)) (i : Int)
    (rest : List Int) (hq : query ≠ "") (hn : s.index.ntotal ≠ 0)
    (hemb : get_embedding p (.pyStr query) = .ok qv)
    (hsearch : s.index.search qv (min k s.index.ntotal) = .ok pairs)
    (hids : pairs.map Prod.snd = i :: rest)
    (hi : i ≠ -1) (hnotmem : i ∉ s.ids) :
    search_memory p s (.pyStr query) k = .error .idNotFound ∧
    (∀ (s₀ : BrainState) (rest₀ : List Int),
      lookup_texts s₀ ((-1) :: rest₀) = lookup_texts s₀ rest₀) := by
  constructor
  · have hfind : s.ids.findIdx? (fun x => x == i) = none := by
      rw [List.findIdx?_eq_none_iff]
      intro x hx
      simp only [beq_eq_false_iff_ne, ne_eq]
      intro hxi
      exact hnotmem (hxi ▸ hx)
    simp only [search_memory, if_neg hq, if_neg hn, hemb, hsearch, hids]
    simp [lookup_texts, hi, hfind]
  · intro s₀ rest₀
    simp [lookup_texts]

/-- Witness for C10: the skewed store whose index holds two vectors while
`ids` records only `[0]`; the nearest neighbour has id 1, and the search
raises. -/
theorem C10_witness :
    search_memory pConst skewedStore (.pyStr "q") 1 = .error .idNotFound ∧
    lookup_texts skewedStore ((-1) :: [0]) = lookup_texts skewedStore [0] := by
  have h := C10_unknown_id_raises pConst skewedStore "q" 1 [0] [(0, 1)] 1 []
    (by decide) (by decide) (by decide) (by decide) (by decide) (by decide)
    (by decide)
  exact ⟨h.1, h.2 skewedStore [0]⟩

/-- `list.index` over the integer list `[st, ..., st+n-1]` finds `st + j` at
position `j` (stated with the accumulator `findIdx?` threads). -/
theorem findIdx?_range'_map (j : Nat) :
    ∀ (st n acc : Nat), j < n →
      ((List.range' st n).map Int.ofNat).findIdx?
        (fun x => x == Int.ofNat (st + j)) acc = some (acc + j) := by
  induction j with
  | zero =>
    intro st n acc hj
    cases n with
    | zero => omega
    | succ n =>
      rw [List.range'_succ]
      simp [List.findIdx?_cons]
  | succ j ih =>
    intro st n acc hj
    cases n with
    | zero => omega
    | succ n =>
      rw [List.range'_succ]
      simp only [List.map_cons, List.findIdx?_cons]
      have hne : (Int.ofNat st == Int.ofNat (st + (j + 1))) = false := by
        simp only [beq_eq_false_iff_ne, ne_eq, Int.ofNat_eq_coe]
        omega
      rw [hne]
      simp only [Bool.false_eq_true, if_false]
      have h := ih (st + 1) n (acc + 1) (by omega)
      rw [show st + 1 + j = st + (j + 1) from by omega] at h
      rw [h]
      congr 1
      omega

/-- `list.index` on the ids list `[0, ..., n-1]` finds `j` at position `j`. -/
theorem findIdx?_ids_range (n j : Nat) (hj : j < n) :
    ((List.range n).map Int.ofNat).findIdx? (fun x => x == Int.ofNat j)
      = some j := by
  have h := findIdx?_range'_map j 0 n 0 hj
  rw [List.range_eq_range']
  simpa using h

/-- The ids of the entries a run of adds appends are consecutive. -/
theorem addedEntries_map_fst (f : String → List ℤ) :
    ∀ (ts : List String) (st : Nat),
      (addedEntries f st ts).map Prod.fst
        = (List.range' st ts.length).map Int.ofNat := by
  intro ts
  induction ts with
  | nil => intro st; rfl
  | cons t ts ih =>
    intro st
    simp only [addedEntries, List.map_cons, List.length_cons, List.range'_succ]
    rw [ih (st + 1)]

/-- One entry is appended per added text. -/
theorem addedEntries_length (f : String → List ℤ) :
    ∀ (ts : List String) (st : Nat),
      (addedEntries f st ts).length = ts.length := by
  intro ts
  induction ts with
  | nil => intro st; rfl
  | cons t ts ih =>
    intro st
    simp [addedEntries, ih]

/-- Every appended entry is the embedding of the text at its position. -/
theorem mem_addedEntries (f : String → List ℤ) :
    ∀ (ts : List String) (st : Nat) (en : Int × List ℤ),
      en ∈ addedEntries f st ts →
      ∃ j, ∃ h : j < ts.length,
        en = (Int.ofNat (st + j), f (pynorm (ts.get ⟨j, h⟩))) := by
  intro ts
  induction ts with
  | nil =>
    intro st en hen
    exact absurd hen (List.not_mem_nil en)
  | cons t ts ih =>
    intro st en hen
    rcases List.mem_cons.mp hen with h0 | h0
    · refine ⟨0, by simp, ?_⟩
      simpa using h0
    · rcases ih (st + 1) en h0 with ⟨j, hj, he⟩
      refine ⟨j + 1, by simpa using Nat.succ_lt_succ hj, ?_⟩
      rw [he, show st + 1 + j = st + (j + 1) from by omega]
      rfl

/-- Conversely, the embedding of the text at position `j` is stored under
id `st + j`. -/
theorem addedEntries_get_mem (f : String → List ℤ) :
    ∀ (ts : List String) (st j : Nat) (h : j < ts.length),
      (Int.ofNat (st + j), f (pynorm (ts.get ⟨j, h⟩))) ∈ addedEntries f st ts := by
  intro ts
  induction ts with
  | nil =>
    intro st j h
    exact absurd h (Nat.not_lt_zero j)
  | cons t ts ih =>
    intro st j h
    cases j with
    | zero =>
      simp [addedEntries]
    | succ j =>
      have hj : j < ts.length := by simpa using h
      have hm := ih (st + 1) j hj
      rw [show st + (j + 1) = st + 1 + j from by omega]
      exact List.mem_cons_of_mem _ hm

/-- A successful first add lets `run_adds` continue from the new state. -/
theorem run_adds_cons (p : Provider) (s : BrainState) (dk : Disk) (t : String)
    (ts : List String) (s₁ : BrainState) (dk₁ : Disk)
    (h : add_memory p s dk (.pyStr t) = .ok (s₁, dk₁)) :
    run_adds p (s, dk) (t :: ts) = run_adds p (s₁, dk₁) ts := by
  simp only [run_adds, h]

/-- Running `add_memory` over a list of non-empty texts with a total
provider of the index dimension succeeds, appending texts, consecutive ids
and embedding entries; the disk afterwards holds the final save (and is
untouched when the list was empty). -/
theorem run_adds_spec (p : Provider) (f : String → List ℤ) (d : Nat)
    (hpe : ∀ t, p t = .ok (f t)) (hpd : ∀ t, (f t).length = d) :
    ∀ (ts : List String) (s : BrainState) (dk : Disk),
      (∀ t ∈ ts, t ≠ "") → s.index.d = d →
      run_adds p (s, dk) ts = .ok
        (⟨s.texts ++ ts,
          s.ids ++ (List.range' s.texts.length ts.length).map Int.ofNat,
          ⟨d, s.index.entries ++ addedEntries f s.texts.length ts⟩⟩,
         if ts.isEmpty then dk else
         save_memory ⟨s.texts ++ ts,
           s.ids ++ (List.range' s.texts.length ts.length).map Int.ofNat,
           ⟨d, s.index.entries ++ addedEntries f s.texts.length ts⟩⟩ dk) := by
  intro ts
  induction ts with
  | nil =>
    intro s dk hts hd
    obtain ⟨tx, ids, di, en⟩ := s
    have hd' : di = d := hd
    subst hd'
    simp [run_adds, addedEntries]
  | cons t ts ih =>
    intro s dk hts hd
    have hne : t ≠ "" := hts t (List.mem_cons_self t ts)
    have hemb : get_embedding p (.pyStr t) = .ok (f (pynorm t)) := by
      simp [get_embedding, hne, hpe]
    have hadd : add_memory p s dk (.pyStr t) = .ok
        (⟨s.texts ++ [t], s.ids ++ [Int.ofNat s.texts.length],
          ⟨s.index.d,
           s.index.entries ++ [(Int.ofNat s.texts.length, f (pynorm t))]⟩⟩,
         save_memory ⟨s.texts ++ [t], s.ids ++ [Int.ofNat s.texts.length],
          ⟨s.index.d,
           s.index.entries ++ [(Int.ofNat s.texts.length, f (pynorm t))]⟩⟩ dk) :=
      (add_memory_ok_iff p s dk t _ _).mpr
        ⟨hne, f (pynorm t), hemb, by rw [hpd, hd], rfl, rfl⟩
    rw [run_adds_cons p s dk t ts _ _ hadd]
    rw [ih ⟨s.texts ++ [t], s.ids ++ [Int.ofNat s.texts.length],
      ⟨s.index.d, s.index.entries ++ [(Int.ofNat s.texts.length, f (pynorm t))]⟩⟩
      (save_memory ⟨s.texts ++ [t], s.ids ++ [Int.ofNat s.texts.length],
        ⟨s.index.d,
         s.index.entries ++ [(Int.ofNat s.texts.length, f (pynorm t))]⟩⟩ dk)
      (fun x hx => hts x (List.mem_cons_of_mem t hx)) hd]
    cases ts with
    | nil =>
      simp [save_memory, addedEntries, hd]
    | cons t2 ts2 =>
      simp [save_memory, addedEntries, hd, List.range'_succ, List.append_assoc]

/-- Looking up a single in-range id in a store whose ids are `[0..N-1]`
returns the text at that position. -/
theorem lookup_texts_single (s : BrainState)
    (hids : s.ids = (List.range s.texts.length).map Int.ofNat)
    (j : Nat) (hj : j < s.texts.length) :
    lookup_texts s [Int.ofNat j] = .ok [s.texts.get ⟨j, hj⟩] := by
  have hne : (Int.ofNat j) ≠ -1 := by
    simp only [Int.ofNat_eq_coe]
    omega
  have hfind : s.ids.findIdx? (fun x => x == Int.ofNat j) = some j := by
    rw [hids]
    exact findIdx?_ids_range s.texts.length j hj
  simp only [lookup_texts, if_neg hne, hfind, List.getElem?_eq_getElem hj]
  rfl

/-- Searching for one of the texts whose embeddings populate the store,
with `k = 1`, returns exactly that text, provided no other stored text
shares its embedding. -/
theorem search_self_single (p : Provider) (f : String → List ℤ) (d : Nat)
    (ts : List String) (tq : String)
    (hpe : ∀ t, p t = .ok (f t)) (hpd : ∀ t, (f t).length = d)
    (htq : tq ≠ "") (hmem : tq ∈ ts)
    (hinj : ∀ t ∈ ts, f (pynorm t) = f (pynorm tq) → t = tq) :
    search_memory p
      ⟨ts, (List.range' 0 ts.length).map Int.ofNat, ⟨d, addedEntries f 0 ts⟩⟩
      (.pyStr tq) 1 = .ok [tq] := by
  have hlen : (addedEntries f 0 ts).length = ts.length := addedEntries_length f ts 0
  have hts0 : ts ≠ [] := List.ne_nil_of_mem hmem
  have hn : ts.length ≠ 0 := fun h => hts0 (List.length_eq_zero.mp h)
  have hntot : (FaissIndex.mk d (addedEntries f 0 ts)).ntotal ≠ 0 := by
    show (addedEntries f 0 ts).length ≠ 0
    rw [hlen]
    exact hn
  have hqv : get_embedding p (.pyStr tq) = .ok (f (pynorm tq)) := by
    simp [get_embedding, htq, hpe]
  have hsearch := faiss_search_ok (FaissIndex.mk d (addedEntries f 0 ts))
    (f (pynorm tq)) (min 1 (FaissIndex.mk d (addedEntries f 0 ts)).ntotal)
    (hpd (pynorm tq))
  simp only [search_memory, if_neg htq, if_neg hntot, hqv, hsearch]
  have hmin : min 1 (FaissIndex.mk d (addedEntries f 0 ts)).ntotal = 1 := by
    apply Nat.min_eq_left
    show 1 ≤ (addedEntries f 0 ts).length
    rw [hlen]
    omega
  rw [hmin]
  set L := (FaissIndex.mk d (addedEntries f 0 ts)).entries.map
    (fun e => (distSq (f (pynorm tq)) e.2, e.1)) with hLdef
  have hLlen : L.length = ts.length := by
    rw [hLdef, List.length_map]
    exact hlen
  cases hSL : L.insertionSort distLe with
  | nil =>
    exfalso
    have hc := congrArg List.length hSL
    rw [List.length_insertionSort, hLlen] at hc
    exact hn (by simpa using hc)
  | cons hd tl =>
    have hhdL : hd ∈ L := by
      refine (List.perm_insertionSort distLe L).subset ?_
      rw [hSL]
      exact List.mem_cons_self hd tl
    have hhdmin : ∀ x ∈ L, distLe hd x := by
      intro x hx
      have hx' : x ∈ hd :: tl := by
        rw [← hSL]
        exact (List.perm_insertionSort distLe L).symm.subset hx
      rcases List.mem_cons.mp hx' with h0 | h0
      · rw [h0]
        exact le_refl hd.1
      · have hsorted := List.sorted_insertionSort distLe L
        rw [hSL] at hsorted
        exact (List.sorted_cons.mp hsorted).1 x h0
    rcases List.mem_iff_get.mp hmem with ⟨⟨jq, hjq⟩, hget⟩
    have hx0mem : (Int.ofNat (0 + jq), f (pynorm tq)) ∈ addedEntries f 0 ts := by
      have h := addedEntries_get_mem f ts 0 jq hjq
      rw [show ts.get ⟨jq, hjq⟩ = tq from hget] at h
      exact h
    have hx0L : (distSq (f (pynorm tq)) (f (pynorm tq)), Int.ofNat (0 + jq)) ∈ L := by
      rw [hLdef]
      exact List.mem_map_of_mem (fun e => (distSq (f (pynorm tq)) e.2, e.1)) hx0mem
    have hhd0 : hd.1 ≤ 0 := by
      have h := hhdmin _ hx0L
      simpa [distLe, distSq_self] using h
    rcases List.mem_map.mp (hLdef ▸ hhdL) with ⟨en, henmem, heneq⟩
    rcases mem_addedEntries f ts 0 en henmem with ⟨j0, hj0, hen⟩
    have hhd1 : hd.1 = distSq (f (pynorm tq)) (f (pynorm (ts.get ⟨j0, hj0⟩))) := by
      rw [← heneq, hen]
    have hdistnn := distSq_nonneg (f (pynorm tq)) (f (pynorm (ts.get ⟨j0, hj0⟩)))
    have hdist0 : distSq (f (pynorm tq)) (f (pynorm (ts.get ⟨j0, hj0⟩))) = 0 := by
      rw [hhd1] at hhd0
      omega
    have hveq : f (pynorm tq) = f (pynorm (ts.get ⟨j0, hj0⟩)) :=
      eq_of_distSq_eq_zero _ _ (by rw [hpd, hpd]) hdist0
    have hteq : ts.get ⟨j0, hj0⟩ = tq :=
      hinj (ts.get ⟨j0, hj0⟩) (List.get_mem ts j0 hj0) hveq.symm
    have hhd2 : hd.2 = Int.ofNat j0 := by
      rw [← heneq, hen]
      simp
    rw [show List.take 1 (hd :: tl) = [hd] from rfl]
    rw [show ([hd].map Prod.snd) = [hd.2] from rfl, hhd2]
    have hlook := lookup_texts_single
      ⟨ts, (List.range' 0 ts.length).map Int.ofNat, ⟨d, addedEntries f 0 ts⟩⟩
      (by rw [List.range_eq_range']) j0 hj0
    rw [hlook]
    rw [show (⟨ts, (List.range' 0 ts.length).map Int.ofNat,
      ⟨d, addedEntries f 0 ts⟩⟩ : BrainState).texts.get ⟨j0, hj0⟩
      = ts.get ⟨j0, hj0⟩ from rfl, hteq]

/-- C1 as literally stated fails on the code: with the deterministic
constant stub `pConst` (every text embeds to `[0]`), adding "a" then "b",
closing and reopening the store, then searching for the added text "b" with
`k = 1` returns `["a"]`, not `["b"]` — the two stored vectors tie at
distance zero and the index resolves the tie to the earlier insertion, so
the claim's "returns exactly that text" does not hold for every
deterministic/stubbed provider. -/
theorem C1_counterexample :
    run_adds pConst (openStore pConst Disk.empty) ["a", "b"]
      = .ok (cexStore, cexDisk) ∧
    search_memory pConst (openStore pConst cexDisk).1 (.pyStr "b") 1
      = .ok ["a"] ∧
    (Except.ok ["a"] : Except Err (List String)) ≠ .ok ["b"] := by
  refine ⟨by decide, by decide, by decide⟩

/-- C1 (amended): round-trip persistence holds once the stub provider is
additionally injective on the added texts: for every sequence of `add`
calls of non-empty texts on a freshly opened project (all adds succeed),
if the store is reopened from the resulting disk, searching one of the
added texts with `k = 1` returns exactly that text, provided no other
added text shares its embedding. The counterexample forces exactly this
injectivity proviso; nothing else in the claim changes. -/
theorem C1_roundtrip_amended (p : Provider) (f : String → List ℤ) (d : Nat)
    (ts : List String) (tq : String)
    (hpe : ∀ t, p t = .ok (f t)) (hpd : ∀ t, (f t).length = d)
    (hts : ∀ t ∈ ts, t ≠ "") (hmem : tq ∈ ts)
    (hinj : ∀ t ∈ ts, f (pynorm t) = f (pynorm tq) → t = tq) :
    ∃ sdk : BrainState × Disk,
      run_adds p (openStore p Disk.empty) ts = .ok sdk ∧
      search_memory p (openStore p sdk.2).1 (.pyStr tq) 1 = .ok [tq] := by
  have hd0 : (initialise_empty_index p).index.d = d := by
    show init_dim p = d
    have hne : ("initial_dimension_check" : String) ≠ "" := by decide
    unfold init_dim
    have hpr : get_embedding p (.pyStr "initial_dimension_check")
        = .ok (f (pynorm "initial_dimension_check")) := by
      simp [get_embedding, hne, hpe]
    rw [hpr]
    exact hpd _
  have hrun := run_adds_spec p f d hpe hpd ts (initialise_empty_index p)
    ⟨true, .missing, .missing⟩ hts hd0
  have e1 : (initialise_empty_index p).texts = [] := rfl
  have e2 : (initialise_empty_index p).ids = [] := rfl
  have e3 : (initialise_empty_index p).index.entries = [] := rfl
  rw [e1, e2, e3] at hrun
  simp only [List.nil_append, List.length_nil] at hrun
  have hts0 : ts.isEmpty = false := by
    cases ts with
    | nil => exact absurd hmem (List.not_mem_nil tq)
    | cons a b => rfl
  rw [if_neg (by simp [hts0])] at hrun
  have hopen : openStore p Disk.empty
      = (initialise_empty_index p, ⟨true, .missing, .missing⟩) := rfl
  rw [hopen]
  refine ⟨_, hrun, ?_⟩
  have hre : (openStore p (save_memory
      ⟨ts, (List.range' 0 ts.length).map Int.ofNat, ⟨d, addedEntries f 0 ts⟩⟩
      ⟨true, .missing, .missing⟩)).1
      = load_memory p (save_memory
      ⟨ts, (List.range' 0 ts.length).map Int.ofNat, ⟨d, addedEntries f 0 ts⟩⟩
      ⟨true, .missing, .missing⟩) := rfl
  rw [hre, load_memory_save]
  have hlen : (addedEntries f 0 ts).length = ts.length := addedEntries_length f ts 0
  have hts1 : ts ≠ [] := List.ne_nil_of_mem hmem
  have hn0 : (⟨ts, (List.range' 0 ts.length).map Int.ofNat,
      ⟨d, addedEntries f 0 ts⟩⟩ : BrainState).index.ntotal ≠ 0 := by
    show (addedEntries f 0 ts).length ≠ 0
    rw [hlen]
    exact fun h => hts1 (List.length_eq_zero.mp h)
  rw [if_pos hn0]
  have hprobe : get_embedding p (.pyStr "test") = .ok (f (pynorm "test")) := by
    have hne : ("test" : String) ≠ "" := by decide
    simp [get_embedding, hne, hpe]
  simp only [hprobe]
  have hdim : ¬((⟨ts, (List.range' 0 ts.length).map Int.ofNat,
      ⟨d, addedEntries f 0 ts⟩⟩ : BrainState).index.d
      ≠ (f (pynorm "test")).length) := by
    show ¬(d ≠ (f (pynorm "test")).length)
    rw [hpd]
    exact fun h => h rfl
  rw [if_neg hdim]
  exact search_self_single p f d ts tq hpe hpd (hts tq hmem) hmem hinj

/-- Witness for the amended C1 at the injective length provider `pLen`:
adding "a" and "bb", reopening, then searching "bb" with `k = 1` returns
exactly "bb". -/
theorem C1_witness :
    ∃ sdk : BrainState × Disk,
      run_adds pLen (openStore pLen Disk.empty) ["a", "bb"] = .ok sdk ∧
      search_memory pLen (openStore pLen sdk.2).1 (.pyStr "bb") 1
        = .ok ["bb"] :=
  C1_roundtrip_amended pLen (fun t => [(t.length : ℤ)]) 1 ["a", "bb"] "bb"
    (fun _ => rfl) (fun _ => rfl) (by decide) (by decide) (by decide)

end Brain
